import Mathlib

/-
Verification of the OddsExtractor core (turkish_parser1.py and sheets1.py).

A shallow embedding of the classification, hidden-score recovery, assembly,
forwarding and at-rest deduplication logic.  Strings are modelled through
their character lists; Python regular expressions are compiled by hand into
executable character-level matchers; Python float threshold tests are
replaced by exact rational comparisons that provably agree with the IEEE-754
computation on all realizable inputs (the fractional parts of 0.7*n and
0.6*n are multiples of 1/10, far larger than the rounding error of the
double products for any feasible string length, and the value of a string
matching the odds shape is k/100 with k below 10000, where nearest-double
conversion is strictly monotone).

Modelling notes, recorded where they matter:
- Python str character predicates (isalpha, isspace, the regex classes
  backslash-d and backslash-s) are modelled over the characters that occur
  in this repository: ASCII plus the non-ASCII letters appearing in the
  source tables.  All concrete inputs exercised below are covered exactly.
- datetime.now() values are threaded as explicit string parameters.
- The Google-Sheets worksheet is modelled as the list of its rows; the
  remove_duplicates method returns the rewritten row list together with the
  count of removed duplicates (the sheet is rewritten only when that count
  is positive, exactly as in the source).
-/

namespace OddsExtractor

/-- Whitespace per Python: the characters matched by str.isspace and by the
regex class backslash-s in unicode mode. -/
def pySpace (c : Char) : Bool :=
  decide (c.toNat = 32 ∨ c.toNat = 9 ∨ c.toNat = 10 ∨ c.toNat = 11 ∨ c.toNat = 12 ∨
    c.toNat = 13 ∨ c.toNat = 28 ∨ c.toNat = 29 ∨ c.toNat = 30 ∨ c.toNat = 31 ∨
    c.toNat = 133 ∨ c.toNat = 160 ∨ c.toNat = 5760 ∨ (8192 ≤ c.toNat ∧ c.toNat ≤ 8202) ∨
    c.toNat = 8232 ∨ c.toNat = 8233 ∨ c.toNat = 8239 ∨ c.toNat = 8287 ∨ c.toNat = 12288)

/-- Decimal digits, the regex class backslash-d (ASCII range; no other digit
characters occur in the data handled here). -/
def pyDigit (c : Char) : Bool :=
  decide (48 ≤ c.toNat ∧ c.toNat ≤ 57)

/-- Alphabetic characters per Python str.isalpha, restricted to ASCII letters
plus the non-ASCII letters that occur in the source tables and data
(u00FC, u00DC, u0192, u0191, u00E0, u00C0, u00ED, u00CD, u00EC, u00CC,
u00EE, u00CE, u00EA, u00CA, u00C4, u00E4 and the Turkish letters). -/
def pyAlpha (c : Char) : Bool :=
  decide ((65 ≤ c.toNat ∧ c.toNat ≤ 90) ∨ (97 ≤ c.toNat ∧ c.toNat ≤ 122) ∨
    c.toNat = 252 ∨ c.toNat = 220 ∨ c.toNat = 402 ∨ c.toNat = 401 ∨
    c.toNat = 224 ∨ c.toNat = 192 ∨ c.toNat = 237 ∨ c.toNat = 205 ∨
    c.toNat = 236 ∨ c.toNat = 204 ∨ c.toNat = 238 ∨ c.toNat = 206 ∨
    c.toNat = 234 ∨ c.toNat = 202 ∨ c.toNat = 196 ∨ c.toNat = 228 ∨
    c.toNat = 305 ∨ c.toNat = 304 ∨ c.toNat = 351 ∨ c.toNat = 350 ∨
    c.toNat = 231 ∨ c.toNat = 199 ∨ c.toNat = 246 ∨ c.toNat = 214 ∨
    c.toNat = 287 ∨ c.toNat = 286)

/-- Membership in the regex character class of pure digit/punctuation lines,
the class of digits, hyphen, whitespace, colon, period, comma and percent. -/
def inPunct (c : Char) : Bool :=
  pyDigit c || decide (c.toNat = 45) || pySpace c ||
    decide (c.toNat = 58) || decide (c.toNat = 46) || decide (c.toNat = 44) ||
    decide (c.toNat = 37)

/-- Uppercasing per Python str.upper, covering ASCII and the cased non-ASCII
characters appearing in the source tables. -/
def pyUpper (c : Char) : Char :=
  if 97 ≤ c.toNat ∧ c.toNat ≤ 122 then Char.ofNat (c.toNat - 32)
  else if c = 'ü' then 'Ü'
  else if c = 'ƒ' then 'Ƒ'
  else if c = 'à' then 'À'
  else if c = 'í' then 'Í'
  else if c = 'ì' then 'Ì'
  else if c = 'î' then 'Î'
  else if c = 'ê' then 'Ê'
  else if c = 'ä' then 'Ä'
  else if c = 'ı' then 'I'
  else if c = 'ş' then 'Ş'
  else if c = 'ç' then 'Ç'
  else if c = 'ö' then 'Ö'
  else if c = 'ğ' then 'Ğ'
  else c

/-- Uppercase a character list. -/
def upperL (l : List Char) : List Char := l.map pyUpper

/-- Python str.strip on a character list: drop leading and trailing whitespace. -/
def stripL (l : List Char) : List Char :=
  ((l.dropWhile pySpace).reverse.dropWhile pySpace).reverse

/-- Python line.strip(). -/
def pyStrip (s : String) : String := ⟨stripL s.data⟩

/-- Collapse every maximal run of whitespace into a single space character,
the effect of re.sub of one-or-more whitespace with a single space. -/
def collapseWs : List Char → List Char
  | [] => []
  | [c] => if pySpace c then [' '] else [c]
  | c :: c2 :: cs =>
    if pySpace c then
      if pySpace c2 then collapseWs (c2 :: cs)
      else ' ' :: collapseWs (c2 :: cs)
    else c :: collapseWs (c2 :: cs)

/-- FlexibleTurkishParser.clean_text: strip, then collapse internal whitespace. -/
def clean_text (s : String) : String := ⟨collapseWs (stripL s.data)⟩

/-- Does the first list occur as a prefix of the second (character lists). -/
def prefixMatch : List Char → List Char → Bool
  | [], _ => true
  | _ :: _, [] => false
  | a :: as, b :: bs => (a == b) && prefixMatch as bs

/-- Python substring test x in y over character lists. -/
def substrMatch (needle : List Char) : List Char → Bool
  | [] => needle.isEmpty
  | b :: bs => prefixMatch needle (b :: bs) || substrMatch needle bs

/-- Word accumulator for pySplitL: acc holds the reversed current word. -/
def pySplitAux (acc : List Char) : List Char → List (List Char)
  | [] => if acc.isEmpty then [] else [acc.reverse]
  | c :: cs =>
    if pySpace c then
      if acc.isEmpty then pySplitAux [] cs
      else acc.reverse :: pySplitAux [] cs
    else pySplitAux (c :: acc) cs

/-- Python str.split() without arguments: maximal whitespace-free words. -/
def pySplitL (l : List Char) : List (List Char) := pySplitAux [] l

/-- Exact match of the odds shape, one or two digits, comma or period, two
digits (the regex of one-or-two digits, a separator, two digits). -/
def oddsShapeCore : List Char → Bool
  | [d1, s, a, b] => pyDigit d1 && (s == ',' || s == '.') && pyDigit a && pyDigit b
  | [d1, d2, s, a, b] => pyDigit d1 && pyDigit d2 && (s == ',' || s == '.') && pyDigit a && pyDigit b
  | _ => false

/-- Python re.match of the anchored odds-shape regex: the dollar anchor also
matches just before one final newline. -/
def matchesOddsRe (s : String) : Bool :=
  oddsShapeCore s.data ||
    (match s.data.getLast? with
     | some c => (c == '\n') && oddsShapeCore s.data.dropLast
     | none => false)

/-- Python re.match of the anchored pure-punctuation regex (one or more
characters of the digit/hyphen/whitespace/colon/period/comma/percent class).
A trailing newline is itself in the class, so the dollar-anchor subtlety is
absorbed. -/
def purePunct (s : String) : Bool :=
  decide (s.data ≠ []) && s.data.all inPunct

/-- The skip_terms table of is_team_match, byte for byte as in the source
(including its mojibake spellings). -/
def skip_terms : List String :=
  ["Detay", "Kadro", "Anlatim", "ƒ∞statistik", "Kar≈üƒ±la≈ütƒ±rma", "ƒ∞ddaa", "Forum",
   "Quick search", "NESINE", "OLEY", "MISLI", "tuttur", "BILYONER",
   "ALT/UST", "Alt/Ust", "SONUC", "SANS", "HANDICAP", "Var", "Yok",
   "Evet", "Hayir", "PEN", "mackolik", "Gol", "Kar≈üƒ±lƒ±klƒ±"]

/-- The common_words table of is_team_match. -/
def common_words : List String :=
  ["A", "B", "C", "D", "E", "F", "G", "H", "I", "J", "K", "L", "M", "N", "O", "P"]

/-- FlexibleTurkishParser.is_team_match.  The float tests letter_count at
least 0.7 times the length (resp. 0.6 times) are rendered as the exact
rational comparisons 10k at least 7n (resp. 6n); these agree with the
Python double computation for every feasible length. -/
def is_team_match (line0 : String) : Bool :=
  let line := pyStrip line0
  if line.length < 3 then false
  else if purePunct line then false
  else if skip_terms.any (fun t => substrMatch (upperL t.data) (upperL line.data)) then false
  else if !(line.data.any pyAlpha) then false
  else if common_words.contains (⟨upperL line.data⟩ : String) then false
  else
    match pySplitL line.data with
    | [word] => decide (4 ≤ word.length) && decide (7 * word.length ≤ 10 * word.countP pyAlpha)
    | words =>
      if decide (2 ≤ words.length) && decide (words.length ≤ 5) then
        let total := ((line.data.filter (fun c => !(c == ' '))).filter (fun c => !(c == '.'))).length
        decide (6 * total ≤ 10 * line.data.countP pyAlpha)
      else false

/-- Numeric value, in hundredths, of a string of the odds shape: the float
value of the string with the comma turned into a period is exactly this
number divided by one hundred. -/
def digitsToNat (ds : List Char) : Nat :=
  ds.foldl (fun a c => 10 * a + (c.toNat - 48)) 0

/-- Value in hundredths of an odds-shaped character list. -/
def oddsCents (l : List Char) : Nat :=
  digitsToNat (l.takeWhile pyDigit) * 100 + digitsToNat ((l.dropWhile pyDigit).drop 1)

/-- FlexibleTurkishParser.is_odds_value: odds shape and float value between
1.01 and 100.0 inclusive.  The float comparison is exact on hundredths. -/
def is_odds_value (line0 : String) : Bool :=
  let line := pyStrip line0
  if matchesOddsRe line then decide (101 ≤ oddsCents line.data ∧ oddsCents line.data ≤ 10000)
  else false

/-- Confusable-glyph class of the digit one under IGNORECASE (I O 1 l vertical
bar, with case variants). -/
def clsOne (c : Char) : Bool := decide (c ∈ ['I', 'i', 'O', 'o', '1', 'l', 'L', '|'])

/-- Confusable-glyph class of the digit zero under IGNORECASE. -/
def clsZero (c : Char) : Bool := decide (c ∈ ['O', 'o', '0', 'Q', 'q'])

/-- Confusable-glyph class of the digit two under IGNORECASE. -/
def clsTwo (c : Char) : Bool := decide (c ∈ ['2', 'z', 'Z'])

/-- Confusable-glyph class of the digit three under IGNORECASE: the source
class holds 3, u2206 and u00EA; IGNORECASE adds u00CA. -/
def clsThree (c : Char) : Bool := decide (c ∈ ['3', '∆', 'ê', 'Ê'])

/-- Separator class of the score patterns under IGNORECASE.  The source class
holds the hyphen and the characters u201A, u00E0, u00ED, u00C4, u00EC,
u00EE (the file stores the intended dash variants in a mojibake spelling);
IGNORECASE adds the case partners u00C0, u00CD, u00E4, u00CC, u00CE. -/
def clsDashI (c : Char) : Bool :=
  decide (c ∈ ['-', '‚', 'à', 'À', 'í', 'Í', 'Ä', 'ä', 'ì', 'Ì', 'î', 'Î'])

/-- Separator class as used by the case-sensitive re.sub that canonicalizes
separators to a hyphen (no IGNORECASE flag there). -/
def dashSub (c : Char) : Bool :=
  decide (c ∈ ['-', '‚', 'à', 'í', 'Ä', 'ì', 'î'])

/-- Match, at the head of the list, one character of the first class, then any
whitespace, one of the separator class, any whitespace, one of the last
class.  No backtracking is needed: the classes are disjoint from whitespace. -/
def matchPatAt (c1 cd c2 : Char → Bool) : List Char → Bool
  | [] => false
  | a :: rest =>
    c1 a &&
      (match rest.dropWhile pySpace with
       | d :: rest2 =>
         cd d &&
           (match rest2.dropWhile pySpace with
            | e :: _ => c2 e
            | [] => false)
       | [] => false)

/-- Python re.search of the three-class pattern: try every start position. -/
def searchPat (c1 cd c2 : Char → Bool) : List Char → Bool
  | [] => false
  | a :: rest => matchPatAt c1 cd c2 (a :: rest) || searchPat c1 cd c2 rest

/-- Does any of the five potential_scores patterns of find_hidden_score match
the line (re.search with IGNORECASE). -/
def scorePatternHit (s : String) : Bool :=
  searchPat clsOne clsDashI clsZero s.data || searchPat clsOne clsDashI clsOne s.data ||
    searchPat clsTwo clsDashI clsZero s.data || searchPat clsTwo clsDashI clsOne s.data ||
    searchPat clsThree clsDashI clsZero s.data

/-- The glyph substitutions of find_hidden_score: I, l, vertical bar to 1;
O, o, Q to 0; separator class to hyphen.  The source applies the three
str.replace chains and then re.sub; as the domains are pairwise disjoint and
no produced character lies in a later domain, a single character map is
extensionally identical. -/
def glyphMap (c : Char) : Char :=
  if c = 'I' ∨ c = 'l' ∨ c = '|' then '1'
  else if c = 'O' ∨ c = 'o' ∨ c = 'Q' then '0'
  else if dashSub c then '-' else c

/-- Normalization pass of find_hidden_score. -/
def normalizeGlyphs (s : String) : String := ⟨s.data.map glyphMap⟩

/-- Match, at the head, the canonical score shape: digit, any whitespace,
hyphen, any whitespace, digit.  Returns the matched span. -/
def scoreAt : List Char → Option (List Char)
  | [] => none
  | a :: rest =>
    if pyDigit a then
      match rest.dropWhile pySpace with
      | '-' :: rest2 =>
        match rest2.dropWhile pySpace with
        | b :: _ =>
          if pyDigit b then
            some (a :: rest.takeWhile pySpace ++ '-' :: rest2.takeWhile pySpace ++ [b])
          else none
        | [] => none
      | _ => none
    else none

/-- Python re.search for the canonical score shape: leftmost match wins. -/
def searchScore : List Char → Option (List Char)
  | [] => none
  | a :: rest =>
    match scoreAt (a :: rest) with
    | some m => some m
    | none => searchScore rest

/-- Group extraction of find_hidden_score: the leftmost digit-hyphen-digit
span with its spaces removed (the source removes only the plain space
character, which is the only whitespace left after clean_text). -/
def extractScore (s : String) : Option String :=
  (searchScore s.data).map (fun m => (⟨m.filter (fun c => !(c == ' '))⟩ : String))

/-- FlexibleTurkishParser.find_hidden_score.  The source tries the five
patterns in order inside each line and, on a hit, normalizes and extracts;
normalization and extraction do not depend on which pattern hit, so the
inner pattern loop collapses to a single disjunctive test per line.  When
extraction fails the source falls through to the next line. -/
def find_hidden_score : List String → Option String
  | [] => none
  | l :: ls =>
    let line := clean_text l
    match (if scorePatternHit line then extractScore (normalizeGlyphs line) else none) with
    | some sc => some sc
    | none => find_hidden_score ls

/-- The inline team-candidate criterion of extract_all_data (lines 169 to 175
of the source), distinct from is_team_match. -/
def inlineTeamFilter (line : String) : Bool :=
  decide (3 ≤ line.length) &&
    !purePunct line &&
    !(["DETAY", "KADRO", "ISTATISTIK", "IDDAA", "FORUM", "MACKOLIK", "MS"].contains
        (⟨upperL line.data⟩ : String)) &&
    !(["NESINE", "NESTNE", "OLEY", "MISLI", "MMISLI", "TUTTUR"].any
        (fun t => substrMatch t.data (upperL line.data))) &&
    !(["EV", "DEP", "DCP", "SONUCU", "YARI", "TOPLAM", "ROOTED"].any
        (fun t => substrMatch t.data (upperL line.data)))

/-- The three accumulators of the per-line loop of extract_all_data. -/
structure Gathered where
  all_text : List String
  odds : List String
  cands : List String
deriving DecidableEq

/-- The per-line loop of extract_all_data: clean the line, skip it when empty,
record it, record it as odds when the odds shape matches, record it as a team
candidate when the inline criterion accepts it. -/
def gatherLines : List String → Gathered
  | [] => ⟨[], [], []⟩
  | l :: ls =>
    let line := clean_text l
    let g := gatherLines ls
    if line.length < 1 then g
    else
      { all_text := line :: g.all_text
        odds := if matchesOddsRe line then line :: g.odds else g.odds
        cands := if inlineTeamFilter line then line :: g.cands else g.cands }

/-- The team_candidates list collected by extract_all_data. -/
def team_candidates (ocr_lines : List String) : List String :=
  (gatherLines ocr_lines).cands

/-- The dictionary produced by extract_all_data: exactly the keys the source
initializes (teams, ht_score, ft_score, odds, all_text).  No other key is
ever inserted. -/
structure ExtractedData where
  teams : Option String
  ht_score : Option String
  ft_score : Option String
  odds : List String
  all_text : List String
deriving DecidableEq

/-- FlexibleTurkishParser.extract_all_data.  The truthiness test on the
recovered score is modelled faithfully (an empty string would fall back to
the default, as would None). -/
def extract_all_data (ocr_lines : List String) : ExtractedData :=
  let g := gatherLines ocr_lines
  let ft : String :=
    match find_hidden_score g.all_text with
    | some s => if s.length = 0 then "0-0" else s
    | none => "0-0"
  let teams : Option String :=
    if 2 ≤ g.cands.length then some (g.cands.getD 0 "" ++ " - " ++ g.cands.getD 1 "")
    else if 1 ≤ g.cands.length then some (g.cands.getD 0 "")
    else none
  { teams := teams, ht_score := none, ft_score := some ft,
    odds := g.odds, all_text := g.all_text }

/-- Python truthiness of an optional string: None and the empty string are
falsy. -/
def pyTruthy : Option String → Bool
  | none => false
  | some s => decide (s.length ≠ 0)

/-- Python value or default: the source writes value or-else default. -/
def orDefault : Option String → String → String
  | none, d => d
  | some s, d => if s.length = 0 then d else s

/-- Python str of an optional string, as interpolated into an f-string:
str(None) is the text None. -/
def optStr : Option String → String
  | none => "None"
  | some s => s

/-- Python odd.replace of comma by period. -/
def replCommaDot (s : String) : String :=
  ⟨s.data.map (fun c => if c = ',' then '.' else c)⟩

/-- The status note written in the last row position. -/
def statusNote (n : Nat) : String := "Active - " ++ toString n ++ " odds found"

/-- FlexibleTurkishParser.create_flexible_row.  The source converts commas,
pads the odds list with the sentinel "0" up to fifteen entries, and then
builds the row.  When the teams value is falsy it reads data of key
categories; extract_all_data never creates that key, so the access raises
KeyError before the placeholder branches can run: this is modelled as the
error result.  After padding the odds list has length at least fifteen, so
taking the first fifteen entries is exactly the indexing 0 to 14 of the
source. -/
def create_flexible_row (data : ExtractedData) (now : String) : Except String (List String) :=
  let odds := data.odds.map replCommaDot
  let oddsP := odds ++ List.replicate (15 - odds.length) "0"
  if pyTruthy data.teams then
    Except.ok ([optStr data.teams, orDefault data.ht_score "0-0", orDefault data.ft_score "0-0"]
      ++ oddsP.take 15 ++ [now, statusNote data.odds.length])
  else
    Except.error "KeyError: categories"

/-- One processing step of the capture loop in main, from OCR lines to the
optionally forwarded row and the updated processed_matches set (modelled as
a duplicate-free list).  The now and hms parameters are the capture
timestamps; sink_ok tells whether the sheet write succeeds.  An exception in
create_flexible_row is caught by the except-block of the loop, so nothing is
forwarded on that path.  Note that the source never consults the
processed_matches set before forwarding; it only inserts after a successful
write. -/
def processCapture (processed : List String) (ocr_lines : List String) (now hms : String)
    (sink_ok : Bool) : Option (List String) × List String :=
  let ed := extract_all_data ocr_lines
  if pyTruthy ed.teams || decide (3 ≤ ed.odds.length) then
    match create_flexible_row ed now with
    | Except.error _ => (none, processed)
    | Except.ok row =>
      let data_id := optStr ed.teams ++ "_" ++ optStr ed.ft_score ++ "_" ++
        String.join (ed.odds.take 5) ++ "_" ++ hms
      if 3 ≤ ed.odds.length then
        if sink_ok then
          (some row, if processed.contains data_id then processed else processed ++ [data_id])
        else (none, processed)
      else (none, processed)
  else (none, processed)

/-- The match_key fingerprint of remove_duplicates: first three columns joined
by underscores (computed by the source only for rows of more than two
columns; the default components are never exercised there). -/
def rowKey (r : List String) : String :=
  r.getD 0 "" ++ "_" ++ r.getD 1 "" ++ "_" ++ r.getD 2 ""

/-- The row scan of remove_duplicates: returns the kept rows and the count of
removed duplicates.  Rows of at most two columns are neither fingerprinted
nor counted; they are simply not appended to the kept list. -/
def dedupAux (seen : List String) : List (List String) → List (List String) × Nat
  | [] => ([], 0)
  | r :: rest =>
    if 2 < r.length then
      if seen.contains (rowKey r) then
        ((dedupAux seen rest).1, (dedupAux seen rest).2 + 1)
      else
        (r :: (dedupAux (rowKey r :: seen) rest).1, (dedupAux (rowKey r :: seen) rest).2)
    else dedupAux seen rest

/-- GoogleSheetsManager.remove_duplicates over the worksheet rows: with at
most one row (headers only or empty) it returns early; otherwise it scans,
and rewrites the sheet with header plus kept rows only when at least one
duplicate was removed. -/
def remove_duplicates (all_values : List (List String)) : List (List String) × Nat :=
  match all_values with
  | [] => ([], 0)
  | header :: rest =>
    if rest.length = 0 then (header :: rest, 0)
    else if 0 < (dedupAux [] rest).2 then (header :: (dedupAux [] rest).1, (dedupAux [] rest).2)
    else (header :: rest, (dedupAux [] rest).2)

/-- The enumerate loop of find_duplicate_matches, starting at sheet index 2. -/
def fdmAux (teams : String) (date : Option String) : Nat → List (List String) → List Nat
  | _, [] => []
  | i, row :: rest =>
    if decide (2 < row.length) && (row.getD 2 "" == teams) &&
        (match date with
         | none => true
         | some d => decide (1 < row.length) && (row.getD 1 "" == d)) then
      i :: fdmAux teams date (i + 1) rest
    else fdmAux teams date (i + 1) rest

/-- GoogleSheetsManager.find_duplicate_matches: indices (sheet numbering,
header is row 1) of rows whose third column equals the given teams value,
optionally also matching the date column. -/
def find_duplicate_matches (teams : String) (date : Option String)
    (all_values : List (List String)) : List Nat :=
  fdmAux teams date 2 (all_values.drop 1)

/-- Canonical whitespace form: every whitespace character is a plain space and
no two adjacent characters are both whitespace.  This is the image
characterization of collapseWs, used to prove clean_text idempotent. -/
def canonB : List Char → Bool
  | [] => true
  | [c] => !pySpace c || (c == ' ')
  | c :: c2 :: cs => (!pySpace c || ((c == ' ') && !pySpace c2)) && canonB (c2 :: cs)

/-- The first row of more than two columns carrying a given fingerprint, used
to state the first-seen-kept property of the cleanup pass. -/
def firstLongWithKey (l : List (List String)) (k : String) : Option (List String) :=
  (l.filter (fun r => decide (2 < r.length) && (rowKey r == k))).head?

/-- Concrete assembled data exercising the odds-padding path:
two detected odds, a truthy teams value. -/
def c6data : ExtractedData :=
  { teams := some "X", ht_score := none, ft_score := some "0-0",
    odds := ["1,85", "2,10"], all_text := [] }

/-- The row create_flexible_row assembles from c6data at capture time t. -/
def c6row : List String :=
  ["X", "0-0", "0-0", "1.85", "2.10", "0", "0", "0", "0", "0", "0", "0", "0", "0", "0",
   "0", "0", "0", "t", "Active - 2 odds found"]

/-- Concrete assembled data with no detected odds and a truthy teams value. -/
def c4data : ExtractedData :=
  { teams := some "A - B", ht_score := none, ft_score := some "1-0",
    odds := [], all_text := [] }

/-- The row create_flexible_row assembles from c4data at capture time t. -/
def c4row : List String :=
  ["A - B", "0-0", "1-0", "0", "0", "0", "0", "0", "0", "0", "0", "0", "0", "0", "0",
   "0", "0", "0", "t", "Active - 0 odds found"]

/-- A capture with two team candidates and three odds values. -/
def linesC3 : List String := ["Fenerbahce", "Galatasaray", "1,85", "2,10", "3,40"]

/-- The row forwarded for linesC3 at the fixed capture time. -/
def rowC3 : List String :=
  ["Fenerbahce - Galatasaray", "0-0", "0-0", "1.85", "2.10", "3.40", "0", "0", "0", "0",
   "0", "0", "0", "0", "0", "0", "0", "0", "2025-01-01 12:00:00", "Active - 3 odds found"]

/-- The in-process fingerprint the loop computes for linesC3 at second 120000. -/
def fpC3 : String := "Fenerbahce - Galatasaray_0-0_1,852,103,40_120000"

/-- A persisted store with a header, two rows sharing a fingerprint, and a
short row. -/
def c9rows : List (List String) :=
  [["H"], ["L", "D", "T", "a"], ["L", "D", "T", "b"], ["x"]]

/-! ## General list lemmas -/

theorem dropWhile_id_of {α : Type} {p : α → Bool} :
    ∀ l : List α, (∀ c ∈ l, p c = false) → l.dropWhile p = l
  | [], _ => rfl
  | c :: cs, h => by
    have hc : p c = false := h c (List.mem_cons_self c cs)
    simp [List.dropWhile_cons, hc]

theorem takeWhile_id_of {α : Type} {p : α → Bool} :
    ∀ l : List α, (∀ c ∈ l, p c = true) → l.takeWhile p = l
  | [], _ => rfl
  | c :: cs, h => by
    have hc : p c = true := h c (List.mem_cons_self c cs)
    have ih := takeWhile_id_of cs (fun d hd => h d (List.mem_cons_of_mem c hd))
    simp [List.takeWhile_cons, hc, ih]

theorem dropWhile_nil_of {α : Type} {p : α → Bool} :
    ∀ l : List α, (∀ c ∈ l, p c = true) → l.dropWhile p = []
  | [], _ => rfl
  | c :: cs, h => by
    have hc : p c = true := h c (List.mem_cons_self c cs)
    have ih := dropWhile_nil_of cs (fun d hd => h d (List.mem_cons_of_mem c hd))
    simp [List.dropWhile_cons, hc, ih]

theorem head?_dropWhile_false {α : Type} {p : α → Bool} :
    ∀ {l : List α} {a : α}, (l.dropWhile p).head? = some a → p a = false := by
  intro l
  induction l with
  | nil => intro a h; simp at h
  | cons c cs ih =>
    intro a h
    rw [List.dropWhile_cons] at h
    by_cases hc : p c
    · rw [if_pos hc] at h; exact ih h
    · rw [if_neg hc] at h
      simp only [List.head?_cons, Option.some.injEq] at h
      subst h; simpa using hc

theorem getElem?_replicate_lt {α : Type} {a : α} {n j : Nat} (h : j < n) :
    (List.replicate n a)[j]? = some a := by
  simp [List.getElem?_replicate, h]

/-! ## Properties of clean_text -/

theorem stripL_head {l : List Char} {a : Char} (h : (stripL l).head? = some a) :
    pySpace a = false := by
  unfold stripL at h
  rw [List.head?_reverse] at h
  obtain ⟨t, ht⟩ := List.dropWhile_suffix (l := (l.dropWhile pySpace).reverse) pySpace
  have hlast : (l.dropWhile pySpace).reverse.getLast? = some a := by
    rw [← ht, List.getLast?_append, h]; rfl
  rw [List.getLast?_reverse] at hlast
  exact head?_dropWhile_false hlast

theorem stripL_last {l : List Char} {a : Char} (h : (stripL l).getLast? = some a) :
    pySpace a = false := by
  unfold stripL at h
  rw [List.getLast?_reverse] at h
  exact head?_dropWhile_false h

theorem stripL_id_of (l : List Char) (hh : ∀ a, l.head? = some a → pySpace a = false)
    (hl : ∀ a, l.getLast? = some a → pySpace a = false) : stripL l = l := by
  have step1 : l.dropWhile pySpace = l := by
    cases l with
    | nil => rfl
    | cons c cs =>
      have := hh c rfl
      simp [List.dropWhile_cons, this]
  have step2 : l.reverse.dropWhile pySpace = l.reverse := by
    cases hre : l.reverse with
    | nil => rfl
    | cons a t =>
      have ha : l.getLast? = some a := by
        rw [← List.head?_reverse, hre]; rfl
      have := hl a ha
      simp [List.dropWhile_cons, this]
  unfold stripL
  rw [step1, step2, List.reverse_reverse]

theorem collapseWs_ne_nil : ∀ l : List Char, l ≠ [] → collapseWs l ≠ []
  | [c], _ => by
    unfold collapseWs; split <;> simp
  | c :: c2 :: cs, _ => by
    unfold collapseWs
    split
    · split
      · exact collapseWs_ne_nil (c2 :: cs) (by simp)
      · simp
    · simp

theorem collapseWs_head_cons (c : Char) (cs : List Char) (h : pySpace c = false) :
    ∃ t, collapseWs (c :: cs) = c :: t := by
  cases cs with
  | nil =>
    refine ⟨[], ?_⟩
    have he : collapseWs [c] = if pySpace c = true then [' '] else [c] := rfl
    rw [he, if_neg (by simp [h])]
  | cons c2 cs' =>
    refine ⟨collapseWs (c2 :: cs'), ?_⟩
    have he : collapseWs (c :: c2 :: cs') =
        if pySpace c = true then
          (if pySpace c2 = true then collapseWs (c2 :: cs') else ' ' :: collapseWs (c2 :: cs'))
        else c :: collapseWs (c2 :: cs') := rfl
    rw [he, if_neg (by simp [h])]

theorem collapseWs_last : ∀ (l : List Char) (a : Char),
    l.getLast? = some a → pySpace a = false → (collapseWs l).getLast? = some a
  | [], a, h, _ => by simp at h
  | [c], a, h, ha => by
    simp only [List.getLast?_singleton, Option.some.injEq] at h
    subst h
    unfold collapseWs
    rw [if_neg (by simp [ha])]
    rfl
  | c :: c2 :: cs, a, h, ha => by
    rw [List.getLast?_cons_cons] at h
    have ih := collapseWs_last (c2 :: cs) a h ha
    have hne : collapseWs (c2 :: cs) ≠ [] := collapseWs_ne_nil _ (by simp)
    obtain ⟨y, ys, hey⟩ := List.exists_cons_of_ne_nil hne
    unfold collapseWs
    split
    · split
      · exact ih
      · rw [hey, List.getLast?_cons_cons, ← hey]; exact ih
    · rw [hey, List.getLast?_cons_cons, ← hey]; exact ih

theorem canonB_collapseWs : ∀ l : List Char, canonB (collapseWs l) = true
  | [] => rfl
  | [c] => by
    unfold collapseWs
    split
    · rfl
    · rename_i hc
      unfold canonB
      simp at hc
      simp [hc]
  | c :: c2 :: cs => by
    have ih := canonB_collapseWs (c2 :: cs)
    unfold collapseWs
    split
    · split
      · exact ih
      · rename_i hc hc2
        simp only [Bool.not_eq_true] at hc2
        obtain ⟨t, ht⟩ := collapseWs_head_cons c2 cs hc2
        rw [ht]
        unfold canonB
        rw [ht] at ih
        simp [hc2, ih]
    · rename_i hc
      simp only [Bool.not_eq_true] at hc
      obtain ⟨y, ys, hey⟩ := List.exists_cons_of_ne_nil (collapseWs_ne_nil (c2 :: cs) (by simp))
      rw [hey]
      unfold canonB
      rw [hey] at ih
      simp [hc, ih]

theorem collapseWs_canon_id : ∀ l : List Char, canonB l = true → collapseWs l = l
  | [], _ => rfl
  | [c], h => by
    unfold canonB at h
    unfold collapseWs
    split
    · rename_i hc
      simp only [hc, Bool.not_true, Bool.false_or, beq_iff_eq] at h
      rw [h]
    · rfl
  | c :: c2 :: cs, h => by
    unfold canonB at h
    simp only [Bool.and_eq_true] at h
    obtain ⟨h1, h2⟩ := h
    have ih := collapseWs_canon_id (c2 :: cs) h2
    unfold collapseWs
    split
    · rename_i hc
      simp only [hc, Bool.not_true, Bool.false_or, Bool.and_eq_true, beq_iff_eq,
        Bool.not_eq_true'] at h1
      obtain ⟨hce, hc2⟩ := h1
      rw [if_neg (by simp [hc2]), ih, hce]
    · rw [ih]

theorem collapseWs_idem (l : List Char) : collapseWs (collapseWs l) = collapseWs l :=
  collapseWs_canon_id _ (canonB_collapseWs l)

theorem clean_text_idem (s : String) : clean_text (clean_text s) = clean_text s := by
  show (⟨collapseWs (stripL (collapseWs (stripL s.data)))⟩ : String) =
    ⟨collapseWs (stripL s.data)⟩
  have hstrip : stripL (collapseWs (stripL s.data)) = collapseWs (stripL s.data) := by
    apply stripL_id_of
    · intro a h
      cases hM : stripL s.data with
      | nil => rw [hM] at h; simp [collapseWs] at h
      | cons m0 mt =>
        have hm0 : pySpace m0 = false := stripL_head (by rw [hM]; rfl)
        obtain ⟨t, ht⟩ := collapseWs_head_cons m0 mt hm0
        rw [hM, ht] at h
        simp only [List.head?_cons, Option.some.injEq] at h
        subst h; exact hm0
    · intro a h
      have hMne : stripL s.data ≠ [] := by
        intro hM
        rw [hM] at h
        simp [collapseWs] at h
      cases hM : (stripL s.data).getLast? with
      | none => rw [List.getLast?_eq_none_iff] at hM; exact absurd hM hMne
      | some b =>
        have hb : pySpace b = false := stripL_last hM
        have := collapseWs_last (stripL s.data) b hM hb
        rw [this] at h
        simp only [Option.some.injEq] at h
        subst h; exact hb
  rw [hstrip, collapseWs_idem]

/-! ## Properties of the per-line loop of extract_all_data -/

theorem gather_cands_eq_filter : ∀ ls : List String,
    (gatherLines ls).cands = (gatherLines ls).all_text.filter inlineTeamFilter
  | [] => rfl
  | l :: ls => by
    have ih := gather_cands_eq_filter ls
    simp only [gatherLines]
    split
    · exact ih
    · by_cases hf : inlineTeamFilter (clean_text l) <;>
        simp [List.filter_cons, hf, ih]

theorem gather_odds_eq_filter : ∀ ls : List String,
    (gatherLines ls).odds = (gatherLines ls).all_text.filter matchesOddsRe
  | [] => rfl
  | l :: ls => by
    have ih := gather_odds_eq_filter ls
    simp only [gatherLines]
    split
    · exact ih
    · by_cases hf : matchesOddsRe (clean_text l) <;>
        simp [List.filter_cons, hf, ih]

theorem mem_all_text : ∀ (ls : List String) (e : String),
    e ∈ (gatherLines ls).all_text → ∃ l ∈ ls, e = clean_text l
  | [], e, h => by simp [gatherLines] at h
  | l :: ls, e, h => by
    simp only [gatherLines] at h
    split at h
    · obtain ⟨l', hl', he⟩ := mem_all_text ls e h
      exact ⟨l', List.mem_cons_of_mem _ hl', he⟩
    · simp only [List.mem_cons] at h
      cases h with
      | inl he => exact ⟨l, List.mem_cons_self _ _, he⟩
      | inr h' =>
        obtain ⟨l', hl', he⟩ := mem_all_text ls e h'
        exact ⟨l', List.mem_cons_of_mem _ hl', he⟩

/-! ## Properties of find_hidden_score -/

theorem find_hidden_score_none : ∀ es : List String,
    (∀ e ∈ es, scorePatternHit (clean_text e) = false) → find_hidden_score es = none
  | [], _ => rfl
  | e :: es, h => by
    have he := h e (List.mem_cons_self _ _)
    have ih := find_hidden_score_none es (fun x hx => h x (List.mem_cons_of_mem _ hx))
    simp only [find_hidden_score, he, if_false]
    exact ih

/-- C7: hidden-score recovery maps the input line I-O to the recovered score
1-0 and the input 2 - l to 2-1; and for a capture none of whose cleaned lines
matches a score pattern, recovery returns none and the assembled record
carries the default full-time score 0-0. -/
theorem spec_c7 :
    find_hidden_score ["I-O"] = some "1-0" ∧
    find_hidden_score ["2 - l"] = some "2-1" ∧
    ∀ lines : List String, (∀ l ∈ lines, scorePatternHit (clean_text l) = false) →
      find_hidden_score lines = none ∧ (extract_all_data lines).ft_score = some "0-0" := by
  refine ⟨by decide, by decide, ?_⟩
  intro lines h
  refine ⟨find_hidden_score_none lines h, ?_⟩
  have hall : ∀ e ∈ (gatherLines lines).all_text, scorePatternHit (clean_text e) = false := by
    intro e he
    obtain ⟨l, hl, rfl⟩ := mem_all_text lines e he
    rw [clean_text_idem]
    exact h l hl
  have h2 : find_hidden_score (gatherLines lines).all_text = none :=
    find_hidden_score_none _ hall
  simp [extract_all_data, h2]

/-- Witness for spec_c7 at the concrete no-score capture with one line hello. -/
theorem spec_c7_witness :
    (∀ l ∈ (["hello"] : List String), scorePatternHit (clean_text l) = false) ∧
    find_hidden_score ["hello"] = none ∧
    (extract_all_data ["hello"]).ft_score = some "0-0" := by
  have h : ∀ l ∈ (["hello"] : List String), scorePatternHit (clean_text l) = false := by decide
  exact ⟨h, (spec_c7.2.2 ["hello"] h).1, (spec_c7.2.2 ["hello"] h).2⟩

/-- C2 counterexample: on the capture with the single line ab1, the assembler
collects ab1 as a team candidate although is_team_match rejects ab1, so the
collected candidate list is not the is_team_match filtering of the cleaned
lines. -/
theorem spec_c2_counterexample :
    team_candidates ["ab1"] = ["ab1"] ∧
    (extract_all_data ["ab1"]).all_text.filter is_team_match = [] ∧
    is_team_match "ab1" = false ∧ inlineTeamFilter "ab1" = true := by decide

/-- C2 amended: the team-candidate list collected by the assembler equals,
element for element in encounter order, the sublist of cleaned lines accepted
by the assembler's own inline criterion; that criterion is not extensionally
equal to is_team_match (see the counterexample). -/
theorem spec_c2 (lines : List String) :
    team_candidates lines = (extract_all_data lines).all_text.filter inlineTeamFilter := by
  show (gatherLines lines).cands = (gatherLines lines).all_text.filter inlineTeamFilter
  exact gather_cands_eq_filter lines

/-- C5 counterexample: the line 1,00 is collected into the odds list by the
assembler (it matches the shape regex), yet the classifier's odds rule
rejects it, its value 1.00 lying outside the range from 1.01 to 100. -/
theorem spec_c5_counterexample :
    (extract_all_data ["1,00"]).odds = ["1,00"] ∧ is_odds_value "1,00" = false := by decide

/-- C5 amended: every value in the assembled odds list comes from a cleaned
line matching the odds shape regex of one-or-two digits, separator, two
digits; the numeric range of the classifier's odds rule is not enforced at
collection. -/
theorem spec_c5 (lines : List String) (v : String) (h : v ∈ (extract_all_data lines).odds) :
    matchesOddsRe v = true := by
  have hv : v ∈ (gatherLines lines).all_text.filter matchesOddsRe := by
    rw [← gather_odds_eq_filter]; exact h
  exact List.of_mem_filter hv

/-- Witness for spec_c5 at the concrete capture with one odds line. -/
theorem spec_c5_witness :
    ("1,85" : String) ∈ (extract_all_data ["1,85"]).odds ∧ matchesOddsRe "1,85" = true := by
  have hm : ("1,85" : String) ∈ (extract_all_data ["1,85"]).odds := by decide
  exact ⟨hm, spec_c5 ["1,85"] "1,85" hm⟩

/-! ## Properties of is_team_match on single-word lines -/

theorem pyAlpha_not_inPunct {c : Char} (h : pyAlpha c = true) : inPunct c = false := by
  simp only [pyAlpha, inPunct, pyDigit, pySpace, decide_eq_true_eq, Bool.or_eq_false_iff,
    decide_eq_false_iff_not] at h ⊢
  omega

theorem stripL_id_of_nospace {l : List Char} (h : ∀ c ∈ l, pySpace c = false) :
    stripL l = l := by
  apply stripL_id_of
  · intro a ha
    exact h a (List.mem_of_mem_head? (by simp [ha]))
  · intro a ha
    exact h a (List.mem_of_mem_getLast? ha)

theorem pySplitAux_nospace : ∀ (l acc : List Char), acc ≠ [] ∨ l ≠ [] →
    (∀ c ∈ l, pySpace c = false) → pySplitAux acc l = [acc.reverse ++ l]
  | [], acc, hne, _ => by
    have hacc : acc ≠ [] := by
      rcases hne with h | h
      · exact h
      · exact absurd rfl h
    simp [pySplitAux, hacc]
  | c :: cs, acc, _, h => by
    have hc : pySpace c = false := h c (List.mem_cons_self _ _)
    have ih := pySplitAux_nospace cs (c :: acc) (Or.inl (by simp))
      (fun d hd => h d (List.mem_cons_of_mem _ hd))
    have hstep : pySplitAux acc (c :: cs) = pySplitAux (c :: acc) cs := by
      simp [pySplitAux, hc]
    rw [hstep, ih]
    simp

theorem pySplitL_nospace {l : List Char} (hne : l ≠ []) (h : ∀ c ∈ l, pySpace c = false) :
    pySplitL l = [l] := by
  unfold pySplitL
  rw [pySplitAux_nospace l [] (Or.inr hne) h]
  rfl

theorem is_team_match_single_true (w : String)
    (hsp : ∀ c ∈ w.data, pySpace c = false)
    (hlen : 4 ≤ w.length)
    (hfrac : 7 * w.length ≤ 10 * w.data.countP pyAlpha)
    (hskip : ∀ t ∈ skip_terms, substrMatch (upperL t.data) (upperL w.data) = false) :
    is_team_match w = true := by
  have hdlen : w.data.length = w.length := rfl
  have hstrip : pyStrip w = w := by
    show (⟨stripL w.data⟩ : String) = w
    rw [stripL_id_of_nospace hsp]
  have hcount : 0 < w.data.countP pyAlpha := by omega
  obtain ⟨a, ha, haa⟩ := List.countP_pos_iff.mp hcount
  have h3 : ¬(w.length < 3) := by omega
  have hpp : purePunct w = false := by
    have hall : w.data.all inPunct = false := by
      cases hall : w.data.all inPunct
      · rfl
      · exact absurd (List.all_eq_true.mp hall a ha) (by simp [pyAlpha_not_inPunct haa])
    simp [purePunct, hall]
  have hsk : (skip_terms.any fun t => substrMatch (upperL t.data) (upperL w.data)) = false := by
    cases hany : skip_terms.any fun t => substrMatch (upperL t.data) (upperL w.data)
    · rfl
    · obtain ⟨t, ht, hsub⟩ := List.any_eq_true.mp hany
      rw [hskip t ht] at hsub
      exact absurd hsub (by simp)
  have hanyA : w.data.any pyAlpha = true := List.any_eq_true.mpr ⟨a, ha, haa⟩
  have hcw : common_words.contains (⟨upperL w.data⟩ : String) = false := by
    cases hc : common_words.contains (⟨upperL w.data⟩ : String)
    · rfl
    · exfalso
      have hmem : (⟨upperL w.data⟩ : String) ∈ common_words := List.elem_iff.mp hc
      have hone : ∀ s ∈ common_words, s.length = 1 := by decide
      have h1 : (⟨upperL w.data⟩ : String).length = 1 := hone _ hmem
      have h2 : (⟨upperL w.data⟩ : String).length = w.data.length := List.length_map _ _
      omega
  have hne : w.data ≠ [] := by
    intro hd
    rw [hd] at hdlen
    simp at hdlen
    omega
  simp only [is_team_match, hstrip, if_neg h3, hpp, Bool.false_eq_true, if_false, hsk,
    hanyA, Bool.not_true, hcw, pySplitL_nospace hne hsp]
  simp only [decide_eq_true_eq, Bool.and_eq_true]
  exact ⟨by omega, by omega⟩

theorem is_team_match_single_false (w : String)
    (hsp : ∀ c ∈ w.data, pySpace c = false)
    (h : w.length < 4 ∨ 10 * w.data.countP pyAlpha < 7 * w.length) :
    is_team_match w = false := by
  have hdlen : w.data.length = w.length := rfl
  have hstrip : pyStrip w = w := by
    show (⟨stripL w.data⟩ : String) = w
    rw [stripL_id_of_nospace hsp]
  simp only [is_team_match, hstrip]
  split
  · rfl
  · split
    · rfl
    · split
      · rfl
      · split
        · rfl
        · split
          · rfl
          · rename_i h3 _ _ _ _
            have hne : w.data ≠ [] := by
              intro hd
              rw [hd] at hdlen
              simp at hdlen
              omega
            rw [pySplitL_nospace hne hsp]
            simp only [Bool.and_eq_false_iff, decide_eq_false_iff_not]
            omega

/-- C8 counterexample: the single-word line Forum has length 5 with every
character alphabetic, yet is_team_match rejects it because the denylist term
Forum occurs in the line, contradicting the claim that every single word of
length at least 4 with at least seventy percent letters is accepted. -/
theorem spec_c8_counterexample :
    ("Forum".data.all fun c => !pySpace c) = true ∧
    4 ≤ ("Forum" : String).length ∧
    7 * ("Forum" : String).length ≤ 10 * "Forum".data.countP pyAlpha ∧
    is_team_match "Forum" = false := by decide

/-- C8 amended: a single-word line of length at least 4 with at least seventy
percent alphabetic characters is accepted provided additionally none of the
skip_terms occurs in it case-insensitively; a single-word line of length
below 4 or with under seventy percent alphabetic characters is always
rejected. -/
theorem spec_c8 :
    (∀ w : String, (∀ c ∈ w.data, pySpace c = false) → 4 ≤ w.length →
      7 * w.length ≤ 10 * w.data.countP pyAlpha →
      (∀ t ∈ skip_terms, substrMatch (upperL t.data) (upperL w.data) = false) →
      is_team_match w = true) ∧
    (∀ w : String, (∀ c ∈ w.data, pySpace c = false) →
      (w.length < 4 ∨ 10 * w.data.countP pyAlpha < 7 * w.length) →
      is_team_match w = false) :=
  ⟨is_team_match_single_true, is_team_match_single_false⟩

/-- Witness for spec_c8 at the accepted word Amsterdam and the rejected short
word abc. -/
theorem spec_c8_witness :
    is_team_match "Amsterdam" = true ∧ is_team_match "abc" = false := by
  constructor
  · exact spec_c8.1 "Amsterdam" (by decide) (by decide) (by decide) (by decide)
  · exact spec_c8.2 "abc" (by decide) (by decide)

/-! ## Properties of create_flexible_row and the forwarding loop -/

theorem create_flexible_row_ok {data : ExtractedData} {now : String} {row : List String}
    (h : create_flexible_row data now = Except.ok row) :
    row = [optStr data.teams, orDefault data.ht_score "0-0", orDefault data.ft_score "0-0"]
      ++ (data.odds.map replCommaDot ++
          List.replicate (15 - (data.odds.map replCommaDot).length) "0").take 15
      ++ [now, statusNote data.odds.length] := by
  unfold create_flexible_row at h
  split at h
  · exact (Except.ok.inj h).symm
  · exact absurd h (by simp)

theorem padded_take_length (data : ExtractedData) :
    ((data.odds.map replCommaDot ++
      List.replicate (15 - (data.odds.map replCommaDot).length) "0").take 15).length = 15 := by
  simp only [List.length_take, List.length_append, List.length_replicate, List.length_map]
  omega

theorem create_flexible_row_cons {data : ExtractedData} {now : String} {row : List String}
    (h : create_flexible_row data now = Except.ok row) :
    row = optStr data.teams :: orDefault data.ht_score "0-0" ::
      orDefault data.ft_score "0-0" ::
      ((data.odds.map replCommaDot ++
        List.replicate (15 - (data.odds.map replCommaDot).length) "0").take 15 ++
       [now, statusNote data.odds.length]) := by
  rw [create_flexible_row_ok h]
  rfl

/-- C4 counterexample: a concretely assembled row has 20 positions, not the
17 the claim states. -/
theorem spec_c4_counterexample :
    create_flexible_row c4data "t" = Except.ok c4row ∧
    c4row.length = 20 ∧ ¬c4row.length = 17 :=
  ⟨rfl, by decide, by decide⟩

/-- C4 amended: every row the core forwards to the sink has exactly 20
positions, in the fixed order teams, half-time score, full-time score, 15
odds slots, capture timestamp, status note (the claim undercounts the total:
3 header fields plus 15 odds slots plus 2 metadata fields make 20). -/
theorem spec_c4 (data : ExtractedData) (now : String) (row : List String)
    (h : create_flexible_row data now = Except.ok row) :
    row.length = 20 ∧
    ∃ slots : List String, slots.length = 15 ∧
      row = optStr data.teams :: orDefault data.ht_score "0-0" ::
        orDefault data.ft_score "0-0" :: (slots ++ [now, statusNote data.odds.length]) := by
  have hX := padded_take_length data
  have hrow := create_flexible_row_cons h
  constructor
  · rw [hrow]
    simp only [List.length_cons, List.length_nil, List.length_append, hX]
  · exact ⟨_, hX, hrow⟩

/-- Witness for spec_c4 at the concrete record c4data. -/
theorem spec_c4_witness : c4row.length = 20 :=
  (spec_c4 c4data "t" c4row rfl).1

/-- C6 (confirmed): the odds slots of an assembled row always number exactly
15: with k detected odds and k below 15, the first k slots are the detected
values in encounter order with commas turned into periods and the remaining
slots are the sentinel 0; with more than 15 detected only the first 15 are
kept. -/
theorem spec_c6 (data : ExtractedData) (now : String) (row : List String)
    (h : create_flexible_row data now = Except.ok row) :
    ((row.drop 3).take 15).length = 15 ∧
    (∀ i v, data.odds[i]? = some v → i < 15 →
      ((row.drop 3).take 15)[i]? = some (replCommaDot v)) ∧
    (∀ i, data.odds.length ≤ i → i < 15 → ((row.drop 3).take 15)[i]? = some "0") := by
  have hX := padded_take_length data
  have hrow := create_flexible_row_cons h
  have hdrop : row.drop 3 =
      (data.odds.map replCommaDot ++
        List.replicate (15 - (data.odds.map replCommaDot).length) "0").take 15 ++
      [now, statusNote data.odds.length] := by
    rw [hrow]
    rfl
  have htake0 := List.take_left
    ((data.odds.map replCommaDot ++
      List.replicate (15 - (data.odds.map replCommaDot).length) "0").take 15)
    ([now, statusNote data.odds.length])
  rw [hX] at htake0
  have hslots : (row.drop 3).take 15 =
      (data.odds.map replCommaDot ++
        List.replicate (15 - (data.odds.map replCommaDot).length) "0").take 15 := by
    rw [hdrop, htake0]
  rw [hslots]
  refine ⟨hX, ?_, ?_⟩
  · intro i v hv hi
    have hvlen : i < data.odds.length := by
      by_contra hcon
      rw [List.getElem?_eq_none_iff.mpr (by omega)] at hv
      exact absurd hv (by simp)
    rw [List.getElem?_take, if_pos hi, List.getElem?_append,
      if_pos (by simpa using hvlen), List.getElem?_map, hv]
    rfl
  · intro i hki hi
    rw [List.getElem?_take, if_pos hi,
      List.getElem?_append_right (by simpa using hki),
      getElem?_replicate_lt (by simp only [List.length_map]; omega)]

/-- Witness for spec_c6 at the concrete record c6data with two detected odds. -/
theorem spec_c6_witness :
    ((c6row.drop 3).take 15).length = 15 ∧
    ((c6row.drop 3).take 15)[1]? = some "2.10" ∧
    ((c6row.drop 3).take 15)[5]? = some "0" := by
  have h := spec_c6 c6data "t" c6row rfl
  refine ⟨h.1, ?_, h.2.2 5 (by decide) (by decide)⟩
  have h2 := h.2.1 1 "2,10" (by decide) (by decide)
  simpa using h2

/-- C1 (code bug): a capture with zero team candidates and three odds values
passes the outer gate, but create_flexible_row then reads the key categories,
which is absent from the dictionary extract_all_data builds, so the call
raises KeyError, the loop catches it and nothing is forwarded: the
synthesized-placeholder record the claim promises never materializes.  With
zero team candidates and two odds values nothing is forwarded either, as the
claim states. -/
theorem spec_c1 :
    (extract_all_data ["1,85", "2,10", "3,40"]).teams = none ∧
    (extract_all_data ["1,85", "2,10", "3,40"]).odds = ["1,85", "2,10", "3,40"] ∧
    create_flexible_row (extract_all_data ["1,85", "2,10", "3,40"]) "2025-01-01 12:00:00" =
      Except.error "KeyError: categories" ∧
    processCapture [] ["1,85", "2,10", "3,40"] "2025-01-01 12:00:00" "120000" true =
      (none, []) ∧
    (extract_all_data ["1,85", "2,10"]).teams = none ∧
    processCapture [] ["1,85", "2,10"] "2025-01-01 12:00:00" "120000" true = (none, []) :=
  ⟨rfl, rfl, rfl, rfl, rfl, rfl⟩

/-- C3 (code bug): forwarding never consults the processed_matches set.  The
same capture processed twice in the same second is forwarded both times,
although its fingerprint is already present in the set the second time. -/
theorem spec_c3 :
    processCapture [] linesC3 "2025-01-01 12:00:00" "120000" true = (some rowC3, [fpC3]) ∧
    processCapture [fpC3] linesC3 "2025-01-01 12:00:00" "120000" true =
      (some rowC3, [fpC3]) :=
  ⟨rfl, rfl⟩

/-! ## Properties of the at-rest cleanup pass -/

theorem filter_head_exists {α : Type} (p : α → Bool) (l : List α) (r : α) (hr : r ∈ l)
    (hp : p r = true) : ∃ r0, (l.filter p).head? = some r0 ∧ r0 ∈ l := by
  have hne : l.filter p ≠ [] := by
    intro h
    have hm := List.mem_filter.mpr ⟨hr, hp⟩
    rw [h] at hm
    simp at hm
  obtain ⟨y, ys, hy⟩ := List.exists_cons_of_ne_nil hne
  refine ⟨y, by rw [hy]; rfl, ?_⟩
  have hmem : y ∈ l.filter p := by
    rw [hy]
    exact List.mem_cons_self _ _
  exact (List.mem_filter.mp hmem).1

theorem dedupAux_long : ∀ (l : List (List String)) (seen : List String),
    ∀ r ∈ (dedupAux seen l).1, 2 < r.length
  | [], _, r, hr => by simp [dedupAux] at hr
  | x :: rest, seen, r, hr => by
    simp only [dedupAux] at hr
    split at hr
    · rename_i hx
      split at hr
      · exact dedupAux_long rest seen r hr
      · rcases List.mem_cons.mp hr with h | h
        · subst h; exact hx
        · exact dedupAux_long rest _ r h
    · exact dedupAux_long rest seen r hr

theorem dedupAux_keys : ∀ (l : List (List String)) (seen : List String),
    ((dedupAux seen l).1.map rowKey).Nodup ∧
    ∀ r ∈ (dedupAux seen l).1, ¬ rowKey r ∈ seen
  | [], _ => by simp [dedupAux]
  | x :: rest, seen => by
    simp only [dedupAux]
    split
    · split
      · exact dedupAux_keys rest seen
      · rename_i hx hc
        obtain ⟨nd', hnotin'⟩ := dedupAux_keys rest (rowKey x :: seen)
        constructor
        · simp only [List.map_cons, List.nodup_cons]
          refine ⟨?_, nd'⟩
          intro hmem
          obtain ⟨r, hr, hkey⟩ := List.mem_map.mp hmem
          exact hnotin' r hr (hkey ▸ List.mem_cons_self _ _)
        · intro r hr
          rcases List.mem_cons.mp hr with h | h
          · subst h
            intro hmem
            exact hc (List.elem_iff.mpr hmem)
          · intro hmem
            exact hnotin' r h (List.mem_cons_of_mem _ hmem)
    · exact dedupAux_keys rest seen

theorem dedupAux_id : ∀ (l : List (List String)) (seen : List String),
    (∀ r ∈ l, 2 < r.length) → (l.map rowKey).Nodup →
    (∀ r ∈ l, ¬ rowKey r ∈ seen) → dedupAux seen l = (l, 0)
  | [], _, _, _, _ => rfl
  | x :: rest, seen, hlong, hnd, hnotin => by
    have hx : 2 < x.length := hlong x (List.mem_cons_self _ _)
    have hcon : seen.contains (rowKey x) = false := by
      cases hc : seen.contains (rowKey x)
      · rfl
      · exact absurd (List.elem_iff.mp hc) (hnotin x (List.mem_cons_self _ _))
    simp only [List.map_cons, List.nodup_cons] at hnd
    have ih := dedupAux_id rest (rowKey x :: seen)
      (fun r hr => hlong r (List.mem_cons_of_mem _ hr)) hnd.2
      (by
        intro r hr hmem
        rcases List.mem_cons.mp hmem with h | h
        · exact hnd.1 (h ▸ List.mem_map_of_mem rowKey hr)
        · exact hnotin r (List.mem_cons_of_mem _ hr) h)
    simp only [dedupAux, if_pos hx, hcon, Bool.false_eq_true, if_false, ih]

theorem dedupAux_first : ∀ (l : List (List String)) (seen : List String) (k : String),
    ¬ k ∈ seen → (∃ r ∈ l, 2 < r.length ∧ rowKey r = k) →
    ∃ r0, firstLongWithKey l k = some r0 ∧ r0 ∈ (dedupAux seen l).1
  | [], _, _, _, hex => by
    obtain ⟨r, hr, _⟩ := hex
    simp at hr
  | x :: rest, seen, k, hk, hex => by
    by_cases hx : 2 < x.length
    · by_cases hxk : rowKey x = k
      · refine ⟨x, ?_, ?_⟩
        · unfold firstLongWithKey
          rw [List.filter_cons_of_pos (by simp [hx, hxk])]
          rfl
        · have hcon : seen.contains (rowKey x) = false := by
            cases hc : seen.contains (rowKey x)
            · rfl
            · exact absurd (hxk ▸ List.elem_iff.mp hc) hk
          simp only [dedupAux, if_pos hx, hcon, Bool.false_eq_true, if_false]
          exact List.mem_cons_self _ _
      · have hex' : ∃ r ∈ rest, 2 < r.length ∧ rowKey r = k := by
          obtain ⟨r, hr, hlr, hkr⟩ := hex
          rcases List.mem_cons.mp hr with h | h
          · exact absurd (h ▸ hkr) hxk
          · exact ⟨r, h, hlr, hkr⟩
        have hfstep : firstLongWithKey (x :: rest) k = firstLongWithKey rest k := by
          unfold firstLongWithKey
          rw [List.filter_cons_of_neg (by simp [hxk])]
        rw [hfstep]
        by_cases hc : seen.contains (rowKey x) = true
        · obtain ⟨r0, h1, h2⟩ := dedupAux_first rest seen k hk hex'
          refine ⟨r0, h1, ?_⟩
          simp only [dedupAux, if_pos hx, hc, if_true]
          exact h2
        · have hk' : ¬ k ∈ rowKey x :: seen := by
            intro hmem
            rcases List.mem_cons.mp hmem with h | h
            · exact hxk h.symm
            · exact hk h
          obtain ⟨r0, h1, h2⟩ := dedupAux_first rest (rowKey x :: seen) k hk' hex'
          refine ⟨r0, h1, ?_⟩
          simp only [Bool.not_eq_true] at hc
          simp only [dedupAux, if_pos hx, hc, Bool.false_eq_true, if_false]
          exact List.mem_cons_of_mem _ h2
    · have hex' : ∃ r ∈ rest, 2 < r.length ∧ rowKey r = k := by
        obtain ⟨r, hr, hlr, hkr⟩ := hex
        rcases List.mem_cons.mp hr with h | h
        · exact absurd (h ▸ hlr) hx
        · exact ⟨r, h, hlr, hkr⟩
      have hfstep : firstLongWithKey (x :: rest) k = firstLongWithKey rest k := by
        unfold firstLongWithKey
        rw [List.filter_cons_of_neg (by simp [hx])]
      rw [hfstep]
      obtain ⟨r0, h1, h2⟩ := dedupAux_first rest seen k hk hex'
      refine ⟨r0, h1, ?_⟩
      simp only [dedupAux, if_neg hx]
      exact h2

/-- C9 (confirmed): the at-rest cleanup pass is idempotent: a second run on
its own output removes zero rows and leaves the stored rows unchanged; and
for every fingerprint present among the data rows, the first-seen row with
more than two columns carrying it is present in the output of a run. -/
theorem spec_c9 (rows : List (List String)) :
    remove_duplicates (remove_duplicates rows).1 = ((remove_duplicates rows).1, 0) ∧
    ∀ r ∈ rows.drop 1, 2 < r.length →
      ∃ r0, firstLongWithKey (rows.drop 1) (rowKey r) = some r0 ∧
        r0 ∈ (remove_duplicates rows).1 := by
  cases rows with
  | nil => exact ⟨rfl, by simp⟩
  | cons hd rest =>
    by_cases hre : rest.length = 0
    · have hrnil : rest = [] := List.length_eq_zero.mp hre
      subst hrnil
      exact ⟨rfl, by simp⟩
    · by_cases hp2 : 0 < (dedupAux [] rest).2
      · have hrem : remove_duplicates (hd :: rest) =
            (hd :: (dedupAux [] rest).1, (dedupAux [] rest).2) := by
          simp only [remove_duplicates, if_neg hre, if_pos hp2]
        constructor
        · rw [hrem]
          by_cases hknil : (dedupAux [] rest).1 = []
          · rw [hknil]
            rfl
          · have hklen : ¬ (dedupAux [] rest).1.length = 0 := by
              simpa [List.length_eq_zero] using hknil
            have hid : dedupAux [] (dedupAux [] rest).1 = ((dedupAux [] rest).1, 0) :=
              dedupAux_id _ [] (dedupAux_long rest []) (dedupAux_keys rest []).1
                (by simp)
            simp only [remove_duplicates, if_neg hklen, hid]
            simp
        · intro r hr hlong
          rw [List.drop_one, List.tail_cons] at hr
          obtain ⟨r0, h1, h2⟩ := dedupAux_first rest [] (rowKey r) (by simp)
            ⟨r, hr, hlong, rfl⟩
          refine ⟨r0, h1, ?_⟩
          rw [hrem]
          exact List.mem_cons_of_mem _ h2
      · have hz : (dedupAux [] rest).2 = 0 := by omega
        have hrem : remove_duplicates (hd :: rest) = (hd :: rest, 0) := by
          simp only [remove_duplicates, if_neg hre, if_neg hp2, hz]
          simp
        constructor
        · rw [hrem, hrem]
        · intro r hr hlong
          rw [List.drop_one, List.tail_cons] at hr
          have hfh := filter_head_exists
            (fun q : List String => decide (2 < q.length) && (rowKey q == rowKey r)) rest r hr
            (by simp [hlong])
          obtain ⟨r0, h1, h2⟩ := hfh
          refine ⟨r0, h1, ?_⟩
          rw [hrem]
          exact List.mem_cons_of_mem _ h2

/-- Witness for spec_c9 at the concrete store c9rows: two rows share a
fingerprint and a short row sits at the end; the second cleanup run changes
nothing and the first-seen long row per fingerprint survives. -/
theorem spec_c9_witness :
    remove_duplicates (remove_duplicates c9rows).1 = ((remove_duplicates c9rows).1, 0) ∧
    firstLongWithKey (c9rows.drop 1) (rowKey ["L", "D", "T", "b"]) =
      some ["L", "D", "T", "a"] ∧
    (["L", "D", "T", "a"] : List String) ∈ (remove_duplicates c9rows).1 := by
  have hf : firstLongWithKey (c9rows.drop 1) (rowKey ["L", "D", "T", "b"]) =
      some ["L", "D", "T", "a"] := by decide
  refine ⟨(spec_c9 c9rows).1, hf, ?_⟩
  obtain ⟨r0, h1, h2⟩ := (spec_c9 c9rows).2 ["L", "D", "T", "b"] (by decide) (by decide)
  rw [hf] at h1
  have he : ["L", "D", "T", "a"] = r0 := Option.some.inj h1
  rw [← he] at h2
  exact h2

theorem fdmAux_mem : ∀ (l : List (List String)) (teams : String) (date : Option String)
    (j i : Nat), i ∈ fdmAux teams date j l → ∃ r ∈ l, 2 < r.length ∧ r.getD 2 "" = teams
  | [], _, _, _, i, h => by simp [fdmAux] at h
  | x :: rest, teams, date, j, i, h => by
    simp only [fdmAux] at h
    split at h
    · rename_i hcond
      simp only [Bool.and_eq_true, decide_eq_true_eq, beq_iff_eq] at hcond
      rcases List.mem_cons.mp h with h' | h'
      · exact ⟨x, List.mem_cons_self _ _, hcond.1.1, hcond.1.2⟩
      · obtain ⟨r, hr, hh⟩ := fdmAux_mem rest teams date (j + 1) i h'
        exact ⟨r, List.mem_cons_of_mem _ hr, hh⟩
    · obtain ⟨r, hr, hh⟩ := fdmAux_mem rest teams date (j + 1) i h
      exact ⟨r, List.mem_cons_of_mem _ hr, hh⟩

/-- C10 counterexample: in a store holding a duplicate pair and the short row
x, the rewrite triggered by the duplicate discards the short row instead of
retaining it. -/
theorem spec_c10_counterexample :
    remove_duplicates [["H"], ["L", "D", "T"], ["L", "D", "T"], ["x"]] =
      ([["H"], ["L", "D", "T"]], 1) ∧
    ¬ (["x"] : List String) ∈
      (remove_duplicates [["H"], ["L", "D", "T"], ["L", "D", "T"], ["x"]]).1 :=
  ⟨by decide, by decide⟩

/-- C10 amended: short persisted rows never raise; they are skipped by the
fingerprint logic (never fingerprinted, never counted, never selected by
find_duplicate_matches).  They are retained only when no duplicate was found,
the store then being left untouched; when a rewrite occurs every surviving
data row has more than two columns, so short rows are discarded. -/
theorem spec_c10 (rows : List (List String)) :
    ((remove_duplicates rows).2 = 0 → (remove_duplicates rows).1 = rows) ∧
    (0 < (remove_duplicates rows).2 →
      ∀ r ∈ (remove_duplicates rows).1.drop 1, 2 < r.length) ∧
    (∀ teams date i, i ∈ find_duplicate_matches teams date rows →
      ∃ r ∈ rows.drop 1, 2 < r.length ∧ r.getD 2 "" = teams) := by
  refine ⟨?_, ?_, ?_⟩
  · intro hz
    cases rows with
    | nil => rfl
    | cons hd rest =>
      by_cases hre : rest.length = 0
      · have hrnil := List.length_eq_zero.mp hre
        subst hrnil
        rfl
      · by_cases hp2 : 0 < (dedupAux [] rest).2
        · exfalso
          simp only [remove_duplicates, if_neg hre, if_pos hp2] at hz
          omega
        · simp only [remove_duplicates, if_neg hre, if_neg hp2]
  · intro hpos r hr
    cases rows with
    | nil => simp [remove_duplicates] at hpos
    | cons hd rest =>
      by_cases hre : rest.length = 0
      · have hrnil := List.length_eq_zero.mp hre
        subst hrnil
        simp [remove_duplicates] at hpos
      · by_cases hp2 : 0 < (dedupAux [] rest).2
        · simp only [remove_duplicates, if_neg hre, if_pos hp2] at hr
          rw [List.drop_one, List.tail_cons] at hr
          exact dedupAux_long rest [] r hr
        · have hz : (dedupAux [] rest).2 = 0 := by omega
          simp [remove_duplicates, if_neg hre, if_neg hp2, hz] at hpos
  · intro teams date i hi
    exact fdmAux_mem _ teams date 2 i hi

/-- Witness for spec_c10: a clean store is left untouched, and a surviving
data row after a rewrite is long. -/
theorem spec_c10_witness :
    (remove_duplicates [["H"], ["ok", "d", "t"]]).1 = [["H"], ["ok", "d", "t"]] ∧
    2 < (["L", "D", "T"] : List String).length := by
  constructor
  · exact (spec_c10 [["H"], ["ok", "d", "t"]]).1 (by decide)
  · exact (spec_c10 [["H"], ["s"], ["L", "D", "T"], ["L", "D", "T"]]).2.1 (by decide)
      ["L", "D", "T"] (by decide)

end OddsExtractor
